import Mathlib

/-!
Verification of the trajectory-analysis core of the route-visualisation
repository: the haversine distance function, the stop detector
(`detectar_paradas`) and the route segmenter loop of `criar_mapa_rotas`.

Modelling conventions:
* Python floats that can carry NaN are modelled by `PyFloat` (a real number
  or NaN); array entries on which `float()` raises (e.g. the Python `None`
  object in an object column) are modelled by `Option PyFloat` with `none`
  for the unconvertible entry.  IEEE comparison with NaN is false, and any
  arithmetic involving NaN yields NaN; both behaviours are reproduced.
* Timestamps are real numbers counted in minutes; a missing timestamp
  (`NaT`) is `none`.  `(t2 - t1).total_seconds() / 60.0` hence becomes
  `t2 - t1`.
* Exact real arithmetic replaces double precision; trigonometric functions
  are the Mathlib real ones.
-/

/-- A Python float value: either a finite real number or NaN. -/
inductive PyFloat where
  | num : ℝ → PyFloat
  | nan : PyFloat

/-- One row of the point DataFrame handed to `detectar_paradas`:
latitude and longitude entries (possibly NaN, possibly unconvertible)
and an optional timestamp in minutes.  (Named `FixRow` because Mathlib
already owns the name `Fix`.) -/
structure FixRow where
  lat : Option PyFloat
  lon : Option PyFloat
  time : Option ℝ

/-- The per-consecutive-pair kinematic record built by the first loop of
`detectar_paradas`: entries of `deltas_min`, `dists_km` and `speeds_kmh`
at one index. -/
structure Edge where
  delta_min : Option ℝ
  dist_km : PyFloat
  speed_kmh : PyFloat

/-- One element of the `stops` list returned by `detectar_paradas`. -/
structure Stop where
  start_idx : ℕ
  end_idx : ℕ
  start_time : Option ℝ
  end_time : Option ℝ
  duration_min : Option ℝ
  centroid : ℝ × ℝ

/-- math.radians. -/
noncomputable def radians (x : ℝ) : ℝ := x * Real.pi / 180

/-- The local variable `hav` of `haversine_km`:
`sin(dphi/2)**2 + cos(phi1)*cos(phi2)*sin(dlambda/2)**2` where
`phi1 = radians(lat1)`, `phi2 = radians(lat2)`, `dphi = radians(lat2-lat1)`,
`dlambda = radians(lon2-lon1)`. -/
noncomputable def havTerm (a b : ℝ × ℝ) : ℝ :=
  Real.sin (radians (b.1 - a.1) / 2) ^ 2 +
    Real.cos (radians a.1) * Real.cos (radians b.1) *
      Real.sin (radians (b.2 - a.2) / 2) ^ 2

/-- `haversine_km(a, b)` of the source: `2 * R * asin(sqrt(hav))` with
`R = 6371.0`. -/
noncomputable def haversine_km (a b : ℝ × ℝ) : ℝ :=
  2 * 6371.0 * Real.arcsin (Real.sqrt (havTerm a b))

/-- Half-angle identity used for the haversine bounds. -/
theorem sin_half_sq (x : ℝ) : Real.sin (x / 2) ^ 2 = (1 - Real.cos x) / 2 := by
  have h1 := Real.sin_sq (x / 2)
  have h2 := Real.cos_sq (x / 2)
  have h3 : 2 * (x / 2) = x := by ring
  rw [h3] at h2
  rw [h1, h2]; ring

/-- Product-to-sum identity for cosines. -/
theorem cos_mul_cos_eq (x y : ℝ) :
    Real.cos x * Real.cos y = (Real.cos (x - y) + Real.cos (x + y)) / 2 := by
  have h1 := Real.cos_add x y
  have h2 := Real.cos_sub x y
  linarith

/-- The haversine term rewritten as a convex-style combination, key to both
bounds: `havTerm = A + C * s` where `A + C = (1 + cos(phi1 + phi2)) / 2`. -/
theorem havTerm_bounds (a b : ℝ × ℝ) : 0 ≤ havTerm a b ∧ havTerm a b ≤ 1 := by
  unfold havTerm
  set p := radians a.1 with hp
  set q := radians b.1 with hq
  have hAC : Real.sin (radians (b.1 - a.1) / 2) ^ 2 + Real.cos p * Real.cos q
      = (1 + Real.cos (p + q)) / 2 := by
    have hrad : radians (b.1 - a.1) = q - p := by
      rw [hp, hq]; unfold radians; ring
    rw [hrad, sin_half_sq, cos_mul_cos_eq]
    have : Real.cos (p - q) = Real.cos (q - p) := by
      rw [← Real.cos_neg (p - q)]; ring_nf
    rw [this]; ring
  set A := Real.sin (radians (b.1 - a.1) / 2) ^ 2 with hA
  set C := Real.cos p * Real.cos q with hC
  set s := Real.sin (radians (b.2 - a.2) / 2) ^ 2 with hs
  have hA0 : 0 ≤ A := sq_nonneg _
  have hA1 : A ≤ 1 := Real.sin_sq_le_one _
  have hs0 : 0 ≤ s := sq_nonneg _
  have hs1 : s ≤ 1 := Real.sin_sq_le_one _
  have hsum0 : 0 ≤ A + C := by
    rw [hAC]
    have := Real.neg_one_le_cos (p + q)
    linarith
  have hsum1 : A + C ≤ 1 := by
    rw [hAC]
    have := Real.cos_le_one (p + q)
    linarith
  constructor
  · nlinarith [mul_nonneg (sub_nonneg.mpr hs1) hA0, mul_nonneg hs0 hsum0]
  · nlinarith [mul_nonneg (sub_nonneg.mpr hs1) hA0, mul_nonneg hs0 (sub_nonneg.mpr hsum1)]

/-- C6: the haversine distance is symmetric, zero on coincident points, and
nonnegative (sphere radius 6371.0 km is baked into `haversine_km`). -/
theorem C6_haversine_symm_self_nonneg (a b : ℝ × ℝ) :
    haversine_km a b = haversine_km b a ∧ haversine_km a a = 0 ∧
      0 ≤ haversine_km a b := by
  refine ⟨?_, ?_, ?_⟩
  · unfold haversine_km
    have hterm : havTerm a b = havTerm b a := by
      unfold havTerm
      have h1 : radians (b.1 - a.1) = -radians (a.1 - b.1) := by
        unfold radians; ring
      have h2 : radians (b.2 - a.2) = -radians (a.2 - b.2) := by
        unfold radians; ring
      rw [h1, h2]
      rw [show -radians (a.1 - b.1) / 2 = -(radians (a.1 - b.1) / 2) by ring]
      rw [show -radians (a.2 - b.2) / 2 = -(radians (a.2 - b.2) / 2) by ring]
      rw [Real.sin_neg, Real.sin_neg, neg_sq, neg_sq]
      ring
    rw [hterm]
  · unfold haversine_km havTerm
    have h0 : radians (a.1 - a.1) = 0 := by unfold radians; ring
    have h0' : radians (a.2 - a.2) = 0 := by unfold radians; ring
    rw [h0, h0']
    norm_num
  · unfold haversine_km
    have h1 : 0 ≤ Real.arcsin (Real.sqrt (havTerm a b)) :=
      Real.arcsin_nonneg.mpr (Real.sqrt_nonneg _)
    nlinarith

/-- C7: for all real inputs, in or out of geographic range, the argument of
`math.sqrt` inside `haversine_km` is nonnegative and the argument of
`math.asin` lies in `[-1, 1]`, so neither call can raise a domain error and
the result is a defined real number. -/
theorem C7_haversine_total (a b : ℝ × ℝ) :
    0 ≤ havTerm a b ∧ havTerm a b ≤ 1 ∧
      -1 ≤ Real.sqrt (havTerm a b) ∧ Real.sqrt (havTerm a b) ≤ 1 ∧
      haversine_km a b = 2 * 6371.0 * Real.arcsin (Real.sqrt (havTerm a b)) := by
  obtain ⟨h0, h1⟩ := havTerm_bounds a b
  refine ⟨h0, h1, ?_, ?_, rfl⟩
  · linarith [Real.sqrt_nonneg (havTerm a b)]
  · exact Real.sqrt_le_one.mpr h1

/-- IEEE comparison `f <= c` of a possibly-NaN float with a finite
threshold: false whenever `f` is NaN. -/
def PyLe : PyFloat → ℝ → Prop
  | .num r, c => r ≤ c
  | .nan, _ => False

/-- Bool-valued version of `PyLe`, as the Python `if` evaluates it. -/
noncomputable def pyLeB (f : PyFloat) (c : ℝ) : Bool :=
  match f with
  | .num r => decide (r ≤ c)
  | .nan => false

/-- Division of a possibly-NaN float by a finite nonzero float: NaN
propagates. -/
noncomputable def pyDiv (f : PyFloat) (c : ℝ) : PyFloat :=
  match f with
  | .num r => .num (r / c)
  | .nan => .nan

/-- `haversine_km` lifted to possibly-NaN inputs: with all four inputs
finite it is the real haversine value; if any input is NaN, every
intermediate of the formula is NaN and so is the result. -/
noncomputable def havF : PyFloat × PyFloat → PyFloat × PyFloat → PyFloat
  | (.num la1, .num lo1), (.num la2, .num lo2) => .num (haversine_km (la1, lo1) (la2, lo2))
  | _, _ => .nan

/-- One iteration of the first loop of `detectar_paradas` (lines 132-154):
`float()`-convert the four coordinates (an unconvertible entry raises and
the `except` branch records `delta=None, dist=0.0, speed=0.0`), otherwise
compute haversine distance, the timestamp delta in minutes, and the speed
`dist / (dt/60)` when the delta is known and positive, else `0.0`. -/
noncomputable def mkEdge (p q : FixRow) : Edge :=
  match p.lat, p.lon, q.lat, q.lon with
  | some la1, some lo1, some la2, some lo2 =>
    let dist := havF (la1, lo1) (la2, lo2)
    let dt : Option ℝ :=
      match p.time, q.time with
      | some t1, some t2 => some (t2 - t1)
      | _, _ => none
    let speed : PyFloat :=
      match dt with
      | some d => if 0 < d then pyDiv dist (d / 60) else .num 0
      | none => .num 0
    ⟨dt, dist, speed⟩
  | _, _, _, _ => ⟨none, .num 0, .num 0⟩

/-- The kinematic pass: one `Edge` per consecutive pair of rows
(`for i in range(len(lats)-1)`). -/
noncomputable def edges : List FixRow → List Edge
  | p :: q :: rest => mkEdge p q :: edges (q :: rest)
  | _ => []

/-- The classification `(dt is not None and dt >= min_stop_minutes and
dist <= max_jump_km) or (sp <= speed_threshold_kmh)` of one edge
(lines 156-164). -/
noncomputable def lowFlag (min_stop_minutes max_jump_km speed_threshold_kmh : ℝ)
    (e : Edge) : Bool :=
  ((match e.delta_min with
    | some d => decide (min_stop_minutes ≤ d)
    | none => false) && pyLeB e.dist_km max_jump_km)
    || pyLeB e.speed_kmh speed_threshold_kmh

/-- The `low_flags` list of `detectar_paradas`. -/
noncomputable def low_flags (df_pts : List FixRow)
    (max_jump_km min_stop_minutes speed_threshold_kmh : ℝ) : List Bool :=
  (edges df_pts).map (lowFlag min_stop_minutes max_jump_km speed_threshold_kmh)

/-- The run-length grouping of the `while i < n` loop (lines 166-191):
starting at offset `i`, skip `False` flags; at a `True` flag emit the pair
(first edge index, last edge index) of the maximal run of consecutive
`True`s and continue right after the run (the loop's final `i += 1` steps
over the flag that ended the run). -/
def runsFrom (i : ℕ) : List Bool → List (ℕ × ℕ)
  | [] => []
  | false :: rest => runsFrom (i + 1) rest
  | true :: rest =>
    (i, i + (rest.takeWhile (fun b => b)).length) ::
      runsFrom (i + (rest.takeWhile (fun b => b)).length + 1)
        (rest.dropWhile (fun b => b))
termination_by l => l.length
decreasing_by
  all_goals simp_wf
  all_goals first
  | omega
  | exact Nat.lt_succ_of_le ((List.dropWhile_sublist _).length_le)

/-- `lats_seg` of one run (line 179): the latitude entries at fix indices
`idx_start..idx_end` that are not `pd.isna` (i.e. neither missing nor
NaN), as real numbers. -/
def latsSeg (pts : List FixRow) (idx_start idx_end : ℕ) : List ℝ :=
  (List.range' idx_start (idx_end + 1 - idx_start)).filterMap fun k =>
    match (pts[k]?).bind FixRow.lat with
    | some (.num r) => some r
    | _ => none

/-- `lons_seg` of one run (line 180), analogous to `latsSeg`. -/
def lonsSeg (pts : List FixRow) (idx_start idx_end : ℕ) : List ℝ :=
  (List.range' idx_start (idx_end + 1 - idx_start)).filterMap fun k =>
    match (pts[k]?).bind FixRow.lon with
    | some (.num r) => some r
    | _ => none

/-- Stop construction for one run spanning fix indices
`idx_start..idx_end` (lines 176-190).  Line 181 guards only the latitude
list: when no latitude in the span is present, the run is dropped and the
loop continues (`.ok none`); past that guard, line 184 divides by
`len(lons_seg)`, so a span with a present latitude but no present
longitude raises ZeroDivisionError — modelled as `.error ()`, which
aborts the whole call; otherwise the stop is emitted with the independent
coordinate-wise means, optional boundary timestamps, and the duration
when both are known. -/
noncomputable def mkStop (pts : List FixRow) (idx_start idx_end : ℕ) :
    Except Unit (Option Stop) :=
  let lats_seg := latsSeg pts idx_start idx_end
  let lons_seg := lonsSeg pts idx_start idx_end
  if lats_seg.length = 0 then .ok none
  else if lons_seg.length = 0 then .error ()
  else
    let centroid : ℝ × ℝ :=
      (lats_seg.sum / lats_seg.length, lons_seg.sum / lons_seg.length)
    let start_time := (pts[idx_start]?).bind FixRow.time
    let end_time := (pts[idx_end]?).bind FixRow.time
    let duration : Option ℝ :=
      match start_time, end_time with
      | some t1, some t2 => some (t2 - t1)
      | _, _ => none
    .ok (some ⟨idx_start, idx_end, start_time, end_time, duration, centroid⟩)

/-- The body of the `while` loop over the grouped runs: append each run's
stop in order, skip dropped runs, and let a ZeroDivisionError from any
run abort the whole traversal (the module-level function has no handler
around the loop). -/
noncomputable def collectStops (pts : List FixRow) :
    List (ℕ × ℕ) → Except Unit (List Stop)
  | [] => .ok []
  | r :: rs =>
    match mkStop pts r.1 (r.2 + 1) with
    | .error e => .error e
    | .ok none => collectStops pts rs
    | .ok (some st) =>
      match collectStops pts rs with
      | .error e => .error e
      | .ok sts => .ok (st :: sts)

/-- `detectar_paradas` (module level, lines 117-193): fewer than two rows
give no stops; otherwise classify every consecutive pair, group the
low-movement flags into maximal runs of edge indices `(start, end)`, and
emit for each run the stop over fix indices `start..end+1`, skipping runs
with no usable latitude; `.error ()` is the uncaught ZeroDivisionError of
line 184 escaping the call. -/
noncomputable def detectar_paradas (df_pts : List FixRow)
    (max_jump_km min_stop_minutes speed_threshold_kmh : ℝ) :
    Except Unit (List Stop) :=
  if df_pts.length < 2 then .ok []
  else
    collectStops df_pts
      (runsFrom 0 (low_flags df_pts max_jump_km min_stop_minutes speed_threshold_kmh))

/-- The segment-splitting loop of `criar_mapa_rotas` (lines 362-375),
with the running invariant that the last element of the open segment
`segment` is the previous point `a` of the zipped pair `(a, b)`: append
`b` while the haversine distance stays within `max_jump_km`; at a longer
jump emit the open segment if it has at least two points and restart from
`[b]`; at the end emit the final open segment under the same guard. -/
noncomputable def segAux (max_jump_km : ℝ) (a : ℝ × ℝ) (segment : List (ℝ × ℝ)) :
    List (ℝ × ℝ) → List (List (ℝ × ℝ))
  | [] => if 2 ≤ segment.length then [segment] else []
  | b :: rest =>
    if haversine_km a b ≤ max_jump_km then
      segAux max_jump_km b (segment ++ [b]) rest
    else
      (if 2 ≤ segment.length then [segment] else []) ++ segAux max_jump_km b [b] rest

/-- The route segmenter on a point list (`pontos`): the loop starts with
`segment = [pontos[0]]` (the caller guarantees a nonempty list; for the
empty list we return no segments, the only reading under which the source
would not raise). -/
noncomputable def segmentos (max_jump_km : ℝ) : List (ℝ × ℝ) → List (List (ℝ × ℝ))
  | [] => []
  | p :: rest => segAux max_jump_km p [p] rest

/-- Point lookup by index with a dummy default; all uses are in range. -/
def getP (pts : List (ℝ × ℝ)) (k : ℕ) : ℝ × ℝ := pts.getD k (0, 0)

/-- The same segment-splitting loop run on indices into `pts` instead of
on the points themselves; distances are looked up through `getP`.  Used to
track which occurrence of an input point lands in which segment. -/
noncomputable def segIdxAux (max_jump_km : ℝ) (pts : List (ℝ × ℝ)) (a : ℕ)
    (segment : List ℕ) : List ℕ → List (List ℕ)
  | [] => if 2 ≤ segment.length then [segment] else []
  | b :: rest =>
    if haversine_km (getP pts a) (getP pts b) ≤ max_jump_km then
      segIdxAux max_jump_km pts b (segment ++ [b]) rest
    else
      (if 2 ≤ segment.length then [segment] else []) ++ segIdxAux max_jump_km pts b [b] rest

/-- Index-level segmenter over all positions of `pts`. -/
noncomputable def segIdxs (max_jump_km : ℝ) (pts : List (ℝ × ℝ)) : List (List ℕ) :=
  match pts with
  | [] => []
  | _ :: _ => segIdxAux max_jump_km pts 0 [0] (List.range' 1 (pts.length - 1))

/-- A jump of the segmenter: consecutive input points `j, j+1` farther
apart than the threshold. -/
def Jump (max_jump_km : ℝ) (pts : List (ℝ × ℝ)) (j : ℕ) : Prop :=
  max_jump_km < haversine_km (getP pts j) (getP pts (j + 1))

/-- An input position both of whose sides are a sequence boundary or a
jump; such a point is stranded alone and dropped by the segmenter. -/
def Isolated (max_jump_km : ℝ) (pts : List (ℝ × ℝ)) (i : ℕ) : Prop :=
  (i = 0 ∨ Jump max_jump_km pts (i - 1)) ∧
    (i = pts.length - 1 ∨ Jump max_jump_km pts i)

open Classical in
/-- Boolean test for `Isolated` (classical, as the underlying real
comparisons are not computable). -/
noncomputable def isolatedB (max_jump_km : ℝ) (pts : List (ℝ × ℝ)) (i : ℕ) : Bool :=
  decide (Isolated max_jump_km pts i)

/-- The input positions the segmenter keeps: all non-isolated ones. -/
noncomputable def keptIndices (max_jump_km : ℝ) (pts : List (ℝ × ℝ)) : List ℕ :=
  (List.range pts.length).filter fun i => !isolatedB max_jump_km pts i

/-- `pyLeB` decides `PyLe`. -/
theorem pyLeB_eq_true (f : PyFloat) (c : ℝ) : pyLeB f c = true ↔ PyLe f c := by
  cases f <;> simp [pyLeB, PyLe]

/-- The edge list indexes the input pairwise: entry `i` exists exactly when
rows `i` and `i+1` do, and is `mkEdge` of them. -/
theorem getElem?_edges (pts : List FixRow) : ∀ i : ℕ,
    (edges pts)[i]? = (pts[i]?).bind fun p => (pts[i + 1]?).map fun q => mkEdge p q := by
  induction pts with
  | nil => intro i; simp [edges]
  | cons p tail IH =>
    cases tail with
    | nil => intro i; cases i <;> simp [edges]
    | cons q rest =>
      intro i
      cases i with
      | zero => simp [edges]
      | succ i => simpa [edges] using IH i

/-- One edge per consecutive pair: `len(Edges) = len(rows) - 1`. -/
theorem edges_length (pts : List FixRow) : (edges pts).length = pts.length - 1 := by
  induction pts with
  | nil => simp [edges]
  | cons p tail IH =>
    cases tail with
    | nil => simp [edges]
    | cons q rest => simpa [edges] using IH

/-- C1: an edge of the kinematic pass is flagged low-movement exactly when
(a) its delta is known, at least `min_stop_minutes` and its distance is at
most `max_jump_km`, or (b) its speed is at most `speed_threshold_kmh`;
the two clauses are alternatives, neither required together with the
other.  (`PyLe` is the source's float `<=`: false on NaN.) -/
theorem C1_low_movement_iff (max_jump_km min_stop_minutes speed_threshold_kmh : ℝ)
    (pts : List FixRow) (i : ℕ) (e : Edge)
    (he : (edges pts)[i]? = some e) :
    (low_flags pts max_jump_km min_stop_minutes speed_threshold_kmh)[i]? = some true ↔
      ((∃ d, e.delta_min = some d ∧ min_stop_minutes ≤ d ∧ PyLe e.dist_km max_jump_km) ∨
        PyLe e.speed_kmh speed_threshold_kmh) := by
  unfold low_flags
  rw [List.getElem?_map, he]
  simp only [Option.map_some', Option.some.injEq]
  obtain ⟨dm, dk, sk⟩ := e
  cases dm <;>
    simp [lowFlag, pyLeB_eq_true, Bool.or_eq_true, Bool.and_eq_true, decide_eq_true_iff]

/-- Concrete rows for witnesses: an unconvertible latitude entry paired
with a fully valid row, no timestamps. -/
def exBadRow : FixRow := ⟨none, some (.num 0), none⟩

/-- A valid all-zero row without timestamp. -/
def exZeroRow : FixRow := ⟨some (.num 0), some (.num 0), none⟩

/-- Two-row input whose single pair takes the `except` branch. -/
def exInvalidPts : List FixRow := [exBadRow, exZeroRow]

/-- Witness for C1: on the degenerate edge of `exInvalidPts` the flag is
true by clause (b), speed `0.0 <= 2.0`. -/
theorem C1_low_movement_iff_wit :
    (low_flags exInvalidPts 0.1 30 2)[0]? = some true :=
  (C1_low_movement_iff 0.1 30 2 exInvalidPts 0 ⟨none, .num 0, .num 0⟩ rfl).mpr
    (Or.inr (by norm_num [PyLe]))

/-- C8: the kinematic pass computes `speed = dist / (delta/60)` exactly when
the delta is known and strictly positive, and `0.0` whenever the delta is
missing, zero or negative; no case is left undefined. -/
theorem C8_speed_rule (pts : List FixRow) (i : ℕ) (e : Edge)
    (he : (edges pts)[i]? = some e) :
    (∀ d, e.delta_min = some d → 0 < d → e.speed_kmh = pyDiv e.dist_km (d / 60)) ∧
      ((e.delta_min = none ∨ ∃ d, e.delta_min = some d ∧ d ≤ 0) →
        e.speed_kmh = .num 0) := by
  rw [getElem?_edges] at he
  obtain ⟨p, hp, rest⟩ : ∃ p, pts[i]? = some p ∧
      ∃ q, pts[i + 1]? = some q ∧ e = mkEdge p q := by
    cases hpi : pts[i]? with
    | none => rw [hpi] at he; simp at he
    | some p =>
      cases hqi : pts[i + 1]? with
      | none => rw [hpi, hqi] at he; simp at he
      | some q =>
        rw [hpi, hqi] at he
        simp at he
        exact ⟨p, rfl, q, rfl, he.symm⟩
  obtain ⟨q, hq, rfl⟩ := rest
  clear he hp hq
  obtain ⟨pla, plo, pt⟩ := p
  obtain ⟨qla, qlo, qt⟩ := q
  refine ⟨fun d hd hpos => ?_, fun h => ?_⟩
  · rcases pla with _ | x <;> rcases plo with _ | y <;>
      rcases qla with _ | z <;> rcases qlo with _ | w <;>
      rcases pt with _ | t1 <;> rcases qt with _ | t2 <;>
      simp_all [mkEdge, pyDiv]
  · rcases pla with _ | x <;> rcases plo with _ | y <;>
      rcases qla with _ | z <;> rcases qlo with _ | w <;>
      rcases pt with _ | t1 <;> rcases qt with _ | t2 <;>
      simp_all [mkEdge, pyDiv]

/-- Witness for C8: the no-timestamp pair of `exInvalidPts` gets speed
`0.0` by the missing-delta rule. -/
theorem C8_speed_rule_wit :
    (⟨none, .num 0, .num 0⟩ : Edge).speed_kmh = .num 0 :=
  (C8_speed_rule exInvalidPts 0 ⟨none, .num 0, .num 0⟩ rfl).2 (Or.inl rfl)

/-- Two rows with a NaN latitude on the first, both timestamped (60
minutes apart). -/
def nanPts : List FixRow :=
  [⟨some .nan, some (.num 0), some 0⟩, ⟨some (.num 0), some (.num 0), some 60⟩]

/-- Counterexample to C5 as stated: a NaN coordinate does not raise in
`float()`, so the `except` branch is not taken; the edge's distance and
speed are NaN (propagated through `haversine_km` and the division), not
`0.0`, and the delta is still computed. -/
theorem C5_counterexample :
    edges nanPts = [⟨some 60, .nan, .nan⟩] ∧
      ((PyFloat.nan = PyFloat.num 0) → False) := by
  constructor
  · show [mkEdge _ _] = _
    have h6 : (60 : ℝ) - 0 = 60 := by norm_num
    simp only [mkEdge, nanPts, havF, h6]
    rw [if_pos (by norm_num : (0:ℝ) < 60)]
    simp [pyDiv]
  · intro h; cases h

/-- C5 amended: only a coordinate entry on which `float()` raises (modelled
by `none`) triggers the `except` branch; such a pair yields the degenerate
edge (no delta, distance `0.0`, speed `0.0`) and the pass still produces
every other edge (`len(edges) = len(rows) - 1`).  NaN coordinates instead
convert fine and propagate NaN (see the counterexample). -/
theorem C5_invalid_coordinate_degenerate (pts : List FixRow) (i : ℕ) (p q : FixRow)
    (hp : pts[i]? = some p) (hq : pts[i + 1]? = some q)
    (hbad : p.lat = none ∨ p.lon = none ∨ q.lat = none ∨ q.lon = none) :
    (edges pts)[i]? = some ⟨none, .num 0, .num 0⟩ ∧
      (edges pts).length = pts.length - 1 := by
  refine ⟨?_, edges_length pts⟩
  rw [getElem?_edges, hp]
  simp only [Option.some_bind, hq, Option.map_some', Option.some.injEq]
  obtain ⟨pla, plo, pt⟩ := p
  obtain ⟨qla, qlo, qt⟩ := q
  rcases pla with _ | x <;> rcases plo with _ | y <;>
    rcases qla with _ | z <;> rcases qlo with _ | w <;>
    simp_all [mkEdge]

/-- Witness for the amended C5 at the concrete `exInvalidPts`. -/
theorem C5_invalid_coordinate_degenerate_wit :
    (edges exInvalidPts)[0]? = some ⟨none, .num 0, .num 0⟩ ∧
      (edges exInvalidPts).length = exInvalidPts.length - 1 :=
  C5_invalid_coordinate_degenerate exInvalidPts 0 exBadRow exZeroRow rfl rfl
    (Or.inl rfl)

/-- Every position strictly inside the maximal true-prefix holds `true`. -/
theorem takeWhile_true_get (l : List Bool) :
    ∀ m, m < (l.takeWhile (fun b => b)).length → l[m]? = some true := by
  induction l with
  | nil => intro m h; simp [List.takeWhile] at h
  | cons b rest IH =>
    intro m h
    cases b with
    | false => simp [List.takeWhile_cons] at h
    | true =>
      cases m with
      | zero => simp
      | succ m =>
        rw [List.getElem?_cons_succ]
        refine IH m ?_
        simpa [List.takeWhile_cons] using h

/-- The position right after the maximal true-prefix, when it exists,
holds `false`. -/
theorem takeWhile_stop_get (l : List Bool) :
    (l.takeWhile (fun b => b)).length < l.length →
      l[(l.takeWhile (fun b => b)).length]? = some false := by
  induction l with
  | nil => intro h; simp at h
  | cons b rest IH =>
    cases b with
    | false => intro h; simp [List.takeWhile_cons]
    | true =>
      intro h
      have h' : (rest.takeWhile (fun b => b)).length < rest.length := by
        simpa [List.takeWhile_cons] using h
      simpa [List.takeWhile_cons] using IH h'

/-- Reading the dropped suffix is reading the original past the
true-prefix. -/
theorem dropWhile_getElem? (l : List Bool) :
    ∀ m, (l.dropWhile (fun b => b))[m]? = l[(l.takeWhile (fun b => b)).length + m]? := by
  induction l with
  | nil => intro m; simp
  | cons b rest IH =>
    cases b with
    | false => intro m; simp [List.dropWhile_cons, List.takeWhile_cons]
    | true =>
      intro m
      have := IH m
      simpa [List.dropWhile_cons, List.takeWhile_cons, Nat.succ_add] using this

/-- A stretch of `true` readings bounds the true-prefix length from
below. -/
theorem length_le_takeWhile_of_true (l : List Bool) :
    ∀ m, (∀ k, k < m → l[k]? = some true) → m ≤ (l.takeWhile (fun b => b)).length := by
  induction l with
  | nil =>
    intro m h
    cases m with
    | zero => simp
    | succ m => have := h 0 (by omega); simp at this
  | cons b rest IH =>
    intro m h
    cases m with
    | zero => omega
    | succ m =>
      have hb : b = true := by have := h 0 (by omega); simpa using this
      subst hb
      have hr : ∀ k, k < m → rest[k]? = some true := by
        intro k hk
        have := h (k + 1) (by omega)
        simpa using this
      have := IH m hr
      simp [List.takeWhile_cons]
      omega

/-- Soundness of the run grouping: every emitted run starts at or after
the offset, is well-ordered, and its first flag reads `true`. -/
theorem runsFrom_sound (i : ℕ) (l : List Bool) :
    ∀ r ∈ runsFrom i l, i ≤ r.1 ∧ r.1 ≤ r.2 ∧ l[r.1 - i]? = some true := by
  induction i, l using runsFrom.induct with
  | case1 i => simp [runsFrom]
  | case2 i rest IH =>
    intro r hr
    rw [runsFrom] at hr
    obtain ⟨h1, h2, h3⟩ := IH r hr
    refine ⟨by omega, h2, ?_⟩
    have hx : r.1 - i = (r.1 - (i + 1)) + 1 := by omega
    rw [hx, List.getElem?_cons_succ]
    exact h3
  | case3 i rest IH =>
    intro r hr
    rw [runsFrom] at hr
    rcases List.mem_cons.mp hr with rfl | hr
    · exact ⟨le_rfl, by omega, by simp⟩
    · obtain ⟨h1, h2, h3⟩ := IH r hr
      rw [dropWhile_getElem?] at h3
      refine ⟨by omega, h2, ?_⟩
      have hx : r.1 - i =
          ((rest.takeWhile (fun b => b)).length + (r.1 - (i + (rest.takeWhile (fun b => b)).length + 1))) + 1 := by
        omega
      rw [hx, List.getElem?_cons_succ]
      exact h3

/-- Distinct runs are separated by at least one non-flagged edge: the next
run starts at least two positions after the previous run's end. -/
theorem runsFrom_sep (i : ℕ) (l : List Bool) :
    (runsFrom i l).Pairwise fun r1 r2 => r1.2 + 2 ≤ r2.1 := by
  induction i, l using runsFrom.induct with
  | case1 i => simp [runsFrom]
  | case2 i rest IH => rw [runsFrom]; exact IH
  | case3 i rest IH =>
    rw [runsFrom]
    refine List.Pairwise.cons ?_ IH
    intro r hr
    obtain ⟨h1, _, hget⟩ :=
      runsFrom_sound (i + (rest.takeWhile (fun b => b)).length + 1)
        (rest.dropWhile (fun b => b)) r hr
    rcases Nat.eq_or_lt_of_le h1 with heq | hlt
    · exfalso
      rw [← heq] at hget
      simp only [Nat.sub_self] at hget
      rw [dropWhile_getElem?, Nat.add_zero] at hget
      by_cases hlen : (rest.takeWhile (fun b => b)).length < rest.length
      · have := takeWhile_stop_get rest hlen
        rw [this] at hget
        simp at hget
      · have hnone : rest[(rest.takeWhile (fun b => b)).length]? = none :=
          List.getElem?_eq_none (by omega)
        rw [hnone] at hget
        simp at hget
    · simp only []
      omega

/-- Completeness of the run grouping: a maximal stretch of `true` flags
(relative to the offset `i`) is one of the emitted runs. -/
theorem runsFrom_complete (i : ℕ) (l : List Bool) :
    ∀ s e, i ≤ s → s ≤ e → e - i < l.length →
      (∀ j, s ≤ j → j ≤ e → l[j - i]? = some true) →
      (s = i ∨ l[s - 1 - i]? = some false) →
      (e + 1 - i = l.length ∨ l[e + 1 - i]? = some false) →
      (s, e) ∈ runsFrom i l := by
  induction i, l using runsFrom.induct with
  | case1 i =>
    intro s e h1 h2 h3 _ _ _
    simp at h3
  | case2 i rest IH =>
    intro s e his hse hlen hall hleft hright
    have hsne : s ≠ i := by
      intro h
      subst h
      have := hall s le_rfl hse
      simp at this
    rw [runsFrom]
    have his' : i + 1 ≤ s := by omega
    refine IH s e his' hse (by simp at hlen; omega) ?_ ?_ ?_
    · intro j hj1 hj2
      have := hall j hj1 hj2
      have hx : j - i = (j - (i + 1)) + 1 := by omega
      rw [hx, List.getElem?_cons_succ] at this
      exact this
    · rcases hleft with h | h
      · omega
      · by_cases hs1 : s - 1 = i
        · left; omega
        · right
          have hx : s - 1 - i = (s - 1 - (i + 1)) + 1 := by omega
          rw [hx, List.getElem?_cons_succ] at h
          exact h
    · rcases hright with h | h
      · left; simp at h ⊢; omega
      · right
        have hx : e + 1 - i = (e + 1 - (i + 1)) + 1 := by omega
        rw [hx, List.getElem?_cons_succ] at h
        exact h
  | case3 i rest IH =>
    intro s e his hse hlen hall hleft hright
    rw [runsFrom]
    by_cases hsi : s = i
    · subst hsi
      have h1 : e - s ≤ (rest.takeWhile (fun b => b)).length := by
        refine length_le_takeWhile_of_true rest (e - s) ?_
        intro k hk
        have := hall (s + 1 + k) (by omega) (by omega)
        have hx : s + 1 + k - s = k + 1 := by omega
        rw [hx, List.getElem?_cons_succ] at this
        exact this
      have h2 : (rest.takeWhile (fun b => b)).length ≤ e - s := by
        by_contra hcon
        push_neg at hcon
        rcases hright with h | h
        · have ht : (rest.takeWhile (fun b => b)).length ≤ rest.length :=
            (List.takeWhile_sublist _).length_le
          simp at h
          omega
        · have htrue : rest[e - s]? = some true := takeWhile_true_get rest (e - s) hcon
          have hx : e + 1 - s = (e - s) + 1 := by omega
          rw [hx, List.getElem?_cons_succ, htrue] at h
          simp at h
      have : e = s + (rest.takeWhile (fun b => b)).length := by omega
      rw [this]
      exact List.mem_cons_self _ _
    · refine List.mem_cons.mpr (Or.inr ?_)
      have hsgt : i < s := by omega
      have hleft' : (true :: rest)[s - 1 - i]? = some false := by
        rcases hleft with h | h
        · omega
        · exact h
      have hstep : (rest.takeWhile (fun b => b)).length + 2 ≤ s - i := by
        by_contra hcon
        push_neg at hcon
        rcases Nat.eq_zero_or_pos (s - 1 - i) with hz | hpos
        · rw [hz] at hleft'
          simp at hleft'
        · have hx : s - 1 - i = (s - 1 - i - 1) + 1 := by omega
          rw [hx, List.getElem?_cons_succ] at hleft'
          have : rest[s - 1 - i - 1]? = some true :=
            takeWhile_true_get rest _ (by omega)
          rw [this] at hleft'
          simp at hleft'
      have hDlen : (rest.takeWhile (fun b => b)).length +
          (rest.dropWhile (fun b => b)).length = rest.length := by
        rw [← List.length_append, List.takeWhile_append_dropWhile]
      set t := (rest.takeWhile (fun b => b)).length with ht
      refine IH s e (by omega) hse ?_ ?_ ?_ ?_
      · simp at hlen
        omega
      · intro j hj1 hj2
        rw [dropWhile_getElem?]
        have := hall j hj1 hj2
        have hx : j - i = (t + (j - (i + t + 1))) + 1 := by omega
        rw [hx, List.getElem?_cons_succ] at this
        rw [← ht]
        exact this
      · right
        rw [dropWhile_getElem?]
        have hx : s - 1 - i = (t + (s - 1 - (i + t + 1))) + 1 := by omega
        rw [hx, List.getElem?_cons_succ] at hleft'
        rw [← ht]
        exact hleft'
      · rcases hright with h | h
        · left
          simp at h
          omega
        · right
          rw [dropWhile_getElem?]
          have hx : e + 1 - i = (t + (e + 1 - (i + t + 1))) + 1 := by omega
          rw [hx, List.getElem?_cons_succ] at h
          rw [← ht]
          exact h

/-- A maximal run of `true` flags: every flag in `s..e` is set and both
neighbours (when they exist) are clear. -/
def IsMaximalRun (flags : List Bool) (s e : ℕ) : Prop :=
  s ≤ e ∧ e < flags.length ∧ (∀ j, s ≤ j → j ≤ e → flags[j]? = some true) ∧
    (s = 0 ∨ flags[s - 1]? = some false) ∧
    (e + 1 = flags.length ∨ flags[e + 1]? = some false)

/-- A produced stop carries exactly the indices it was built from. -/
theorem mkStop_eq_some_idx (pts : List FixRow) (a b : ℕ) (st : Stop)
    (h : mkStop pts a b = .ok (some st)) : st.start_idx = a ∧ st.end_idx = b := by
  simp only [mkStop] at h
  split at h
  · simp at h
  · split at h
    · exact Except.noConfusion h
    · simp only [Except.ok.injEq, Option.some.injEq] at h
      subst h
      exact ⟨rfl, rfl⟩

/-- A run is dropped (and the loop continues) exactly when no latitude in
its span is usable. -/
theorem mkStop_ok_none_iff (pts : List FixRow) (a b : ℕ) :
    mkStop pts a b = .ok none ↔ latsSeg pts a b = [] := by
  constructor
  · intro h
    simp only [mkStop] at h
    split at h
    · next hc => simpa using hc
    · split at h
      · exact Except.noConfusion h
      · simp at h
  · intro h
    simp only [mkStop]
    rw [if_pos (by simp [h])]

/-- The ZeroDivisionError of line 184 occurs exactly when the span has a
usable latitude but no usable longitude. -/
theorem mkStop_error_iff (pts : List FixRow) (a b : ℕ) :
    mkStop pts a b = .error () ↔
      latsSeg pts a b ≠ [] ∧ lonsSeg pts a b = [] := by
  constructor
  · intro h
    simp only [mkStop] at h
    split at h
    · exact Except.noConfusion h
    · next hc1 =>
      split at h
      · next hc2 => exact ⟨by simpa using hc1, by simpa using hc2⟩
      · simp at h
  · rintro ⟨h1, h2⟩
    simp only [mkStop]
    rw [if_neg (by simpa using h1), if_pos (by simp [h2])]

/-- A stop is produced from a span exactly when the span has both a
usable latitude and a usable longitude, and then its indices are the
span's. -/
theorem mkStop_some_iff (pts : List FixRow) (a b : ℕ) :
    (∃ st, mkStop pts a b = .ok (some st) ∧ st.start_idx = a ∧ st.end_idx = b) ↔
      (latsSeg pts a b ≠ [] ∧ lonsSeg pts a b ≠ []) := by
  constructor
  · rintro ⟨st, h, _, _⟩
    simp only [mkStop] at h
    split at h
    · simp at h
    · next hc1 =>
      split at h
      · exact Except.noConfusion h
      · next hc2 => exact ⟨by simpa using hc1, by simpa using hc2⟩
  · rintro ⟨h1, h2⟩
    have hc1 : ¬ (latsSeg pts a b).length = 0 := by simpa using h1
    have hc2 : ¬ (lonsSeg pts a b).length = 0 := by simpa using h2
    refine ⟨⟨a, b, (pts[a]?).bind FixRow.time, (pts[b]?).bind FixRow.time,
        (match (pts[a]?).bind FixRow.time, (pts[b]?).bind FixRow.time with
          | some t1, some t2 => some (t2 - t1)
          | _, _ => none),
        ((latsSeg pts a b).sum / (latsSeg pts a b).length,
          (lonsSeg pts a b).sum / (lonsSeg pts a b).length)⟩, ?_, rfl, rfl⟩
    simp only [mkStop]
    rw [if_neg hc1, if_neg hc2]

/-- The per-run outcome of the loop body, with the raising case projected
away; used only to describe the successful traversals of
`collectStops`. -/
noncomputable def runStop (pts : List FixRow) (r : ℕ × ℕ) : Option Stop :=
  match mkStop pts r.1 (r.2 + 1) with
  | .ok o => o
  | .error _ => none

/-- On a successful traversal, the projected outcome determines the full
one. -/
theorem runStop_eq_some (pts : List FixRow) (r : ℕ × ℕ) (st : Stop)
    (h : runStop pts r = some st) : mkStop pts r.1 (r.2 + 1) = .ok (some st) := by
  unfold runStop at h
  cases hmk : mkStop pts r.1 (r.2 + 1) with
  | error e => rw [hmk] at h; simp at h
  | ok o =>
    rw [hmk] at h
    simp only at h
    rw [h]

/-- When the loop over the runs finishes without raising, its result is
the in-order collection of the emitted stops. -/
theorem collectStops_ok (pts : List FixRow) :
    ∀ (rs : List (ℕ × ℕ)) (sts : List Stop), collectStops pts rs = .ok sts →
      sts = rs.filterMap (runStop pts) := by
  intro rs
  induction rs with
  | nil =>
    intro sts h
    rw [collectStops] at h
    simp only [Except.ok.injEq] at h
    simp [h.symm]
  | cons r rs IH =>
    intro sts h
    rw [collectStops] at h
    rw [List.filterMap_cons]
    cases hmk : mkStop pts r.1 (r.2 + 1) with
    | error e => rw [hmk] at h; exact Except.noConfusion h
    | ok o =>
      rw [hmk] at h
      cases o with
      | none =>
        simp only at h
        rw [show runStop pts r = none from by unfold runStop; rw [hmk]]
        exact IH sts h
      | some st =>
        simp only at h
        rw [show runStop pts r = some st from by unfold runStop; rw [hmk]]
        cases hcs : collectStops pts rs with
        | error e => rw [hcs] at h; exact Except.noConfusion h
        | ok sts' =>
          rw [hcs] at h
          simp only [Except.ok.injEq] at h
          subst h
          rw [← IH sts' hcs]

/-- When the loop finishes without raising, no run raised. -/
theorem collectStops_no_error (pts : List FixRow) :
    ∀ (rs : List (ℕ × ℕ)) (sts : List Stop), collectStops pts rs = .ok sts →
      ∀ r ∈ rs, mkStop pts r.1 (r.2 + 1) ≠ .error () := by
  intro rs
  induction rs with
  | nil =>
    intro sts _ r hr
    simp at hr
  | cons r0 rs IH =>
    intro sts h r hr
    rw [collectStops] at h
    cases hmk : mkStop pts r0.1 (r0.2 + 1) with
    | error e => rw [hmk] at h; exact Except.noConfusion h
    | ok o =>
      rw [hmk] at h
      rcases List.mem_cons.mp hr with rfl | hr
      · rw [hmk]
        intro hcon
        exact Except.noConfusion hcon
      · cases o with
        | none =>
          simp only at h
          exact IH sts h r hr
        | some st =>
          simp only at h
          cases hcs : collectStops pts rs with
          | error e => rw [hcs] at h; exact Except.noConfusion h
          | ok sts' => exact IH sts' hcs r hr

/-- Evaluation helper: a single run that emits a stop. -/
theorem collectStops_singleton (pts : List FixRow) (r : ℕ × ℕ) (st : Stop)
    (h : mkStop pts r.1 (r.2 + 1) = .ok (some st)) :
    collectStops pts [r] = .ok [st] := by
  simp only [collectStops, h]

/-- The flag list has one entry per edge. -/
theorem low_flags_length (pts : List FixRow) (maxJ minS spdT : ℝ) :
    (low_flags pts maxJ minS spdT).length = pts.length - 1 := by
  unfold low_flags
  rw [List.length_map, edges_length]

/-- C2 amended: whenever `detectar_paradas` returns a stop list at all —
it instead raises ZeroDivisionError when some flagged run's span has a
usable latitude but no usable longitude — that list is sorted strictly by
start index and pairwise non-overlapping (each stop ends before the next
begins), every stop spans at least two fixes (`end_idx > start_idx`), and
every maximal run of flagged edges `s..e` whose fix span `s..e+1` has a
usable latitude yields a stop over exactly that span (in particular a
single flagged edge gives a 2-fix stop); a run with no usable latitude is
discarded. -/
theorem C2_stop_list_invariants (pts : List FixRow) (maxJ minS spdT : ℝ)
    (sts : List Stop) (hok : detectar_paradas pts maxJ minS spdT = .ok sts) :
    (sts.Pairwise fun s1 s2 =>
        s1.start_idx < s2.start_idx ∧ s1.end_idx < s2.start_idx) ∧
      (∀ st ∈ sts, st.start_idx < st.end_idx) ∧
      (∀ s e, IsMaximalRun (low_flags pts maxJ minS spdT) s e →
        latsSeg pts s (e + 1) ≠ [] →
        ∃ st ∈ sts, st.start_idx = s ∧ st.end_idx = e + 1) := by
  unfold detectar_paradas at hok
  by_cases hlen : pts.length < 2
  · rw [if_pos hlen] at hok
    simp only [Except.ok.injEq] at hok
    subst hok
    refine ⟨List.Pairwise.nil, by simp, ?_⟩
    intro s e hrun _
    exfalso
    obtain ⟨_, he, _, _, _⟩ := hrun
    rw [low_flags_length] at he
    omega
  · rw [if_neg hlen] at hok
    set flags := low_flags pts maxJ minS spdT with hflags
    have hsts := collectStops_ok pts (runsFrom 0 flags) sts hok
    have hnoerr := collectStops_no_error pts (runsFrom 0 flags) sts hok
    refine ⟨?_, ?_, ?_⟩
    · rw [hsts]
      have hsep := runsFrom_sep 0 flags
      have hsep' : (runsFrom 0 flags).Pairwise fun r1 r2 =>
          r1.1 ≤ r1.2 ∧ r1.2 + 2 ≤ r2.1 := by
        refine hsep.imp_of_mem ?_
        intro r1 r2 h1 _ hr
        exact ⟨(runsFrom_sound 0 flags r1 h1).2.1, hr⟩
      refine hsep'.filterMap _ ?_
      intro r1 r2 hr st1 h1 st2 h2
      obtain ⟨hs1, he1⟩ :=
        mkStop_eq_some_idx pts r1.1 (r1.2 + 1) st1 (runStop_eq_some pts r1 st1 h1)
      obtain ⟨hs2, _⟩ :=
        mkStop_eq_some_idx pts r2.1 (r2.2 + 1) st2 (runStop_eq_some pts r2 st2 h2)
      constructor <;> omega
    · intro st hst
      rw [hsts] at hst
      obtain ⟨r, hr, hsome⟩ := List.mem_filterMap.mp hst
      obtain ⟨hs, he⟩ :=
        mkStop_eq_some_idx pts r.1 (r.2 + 1) st (runStop_eq_some pts r st hsome)
      obtain ⟨_, hr12, _⟩ := runsFrom_sound 0 flags r hr
      omega
    · intro s e hrun hlat
      obtain ⟨hse, he, hall, hleft, hright⟩ := hrun
      have hmem : (s, e) ∈ runsFrom 0 flags := by
        refine runsFrom_complete 0 flags s e (by omega) hse (by omega) ?_ ?_ ?_
        · intro j hj1 hj2
          have := hall j hj1 hj2
          simpa using this
        · rcases hleft with h | h
          · exact Or.inl h
          · exact Or.inr (by simpa using h)
        · rcases hright with h | h
          · exact Or.inl (by omega)
          · exact Or.inr (by simpa using h)
      cases hmk : mkStop pts s (e + 1) with
      | error u =>
        cases u
        exact absurd hmk (hnoerr (s, e) hmem)
      | ok o =>
        cases o with
        | none =>
          exact absurd ((mkStop_ok_none_iff pts s (e + 1)).mp hmk) hlat
        | some st =>
          obtain ⟨hs, hee⟩ := mkStop_eq_some_idx pts s (e + 1) st hmk
          refine ⟨st, ?_, hs, hee⟩
          rw [hsts]
          refine List.mem_filterMap.mpr ⟨(s, e), hmem, ?_⟩
          unfold runStop
          rw [hmk]

/-- Two identical valid rows (a perfectly stationary pair, no time). -/
def exStatPts : List FixRow := [exZeroRow, exZeroRow]

/-- A row with NaN latitude, valid longitude, no time. -/
def cexNanRow : FixRow := ⟨some .nan, some (.num 0), none⟩

/-- Two NaN-latitude rows: the single edge is flagged (speed `0.0` since
the delta is unknown) but no latitude in the span is usable. -/
def cexNanRunPts : List FixRow := [cexNanRow, cexNanRow]

/-- Flags of the stationary pair at the default thresholds. -/
theorem exStat_flags : low_flags exStatPts 0.1 30 2 = [true] := by
  show [lowFlag 30 0.1 2 (mkEdge exZeroRow exZeroRow)] = [true]
  have he : mkEdge exZeroRow exZeroRow
      = ⟨none, .num (haversine_km (0, 0) (0, 0)), .num 0⟩ := rfl
  rw [he]
  simp only [lowFlag, pyLeB, Bool.false_and, Bool.false_or]
  rw [decide_eq_true (by norm_num : (0:ℝ) ≤ 2)]

/-- Flags of the NaN-latitude pair at the default thresholds. -/
theorem cexNan_flags : low_flags cexNanRunPts 0.1 30 2 = [true] := by
  show [lowFlag 30 0.1 2 (mkEdge cexNanRow cexNanRow)] = [true]
  have he : mkEdge cexNanRow cexNanRow = ⟨none, .nan, .num 0⟩ := rfl
  rw [he]
  simp only [lowFlag, pyLeB, Bool.false_and, Bool.false_or]
  rw [decide_eq_true (by norm_num : (0:ℝ) ≤ 2)]

/-- The stop built for the span 0..1 of `exStatPts`. -/
theorem exStat_mkStop : mkStop exStatPts 0 1 =
    .ok (some ⟨0, 1, none, none, none, (0, 0)⟩) := by
  have hlat : latsSeg exStatPts 0 1 = [0, 0] := rfl
  have hlon : lonsSeg exStatPts 0 1 = [0, 0] := rfl
  have ht0 : (exStatPts[0]?).bind FixRow.time = none := rfl
  have ht1 : (exStatPts[1]?).bind FixRow.time = none := rfl
  simp only [mkStop, hlat, hlon, ht0, ht1]
  rw [if_neg (by norm_num), if_neg (by norm_num)]
  simp only [Except.ok.injEq, Option.some.injEq, Stop.mk.injEq, Prod.ext_iff]
  norm_num

/-- Counterexample to C2 as stated: on `cexNanRunPts` the single edge is a
maximal flagged run (edge indices 0..0), yet the detector returns with no
stop at all, because no latitude in the span is usable (the discard of
step 3, which the claim leaves out). -/
theorem C2_counterexample :
    IsMaximalRun (low_flags cexNanRunPts 0.1 30 2) 0 0 ∧
      detectar_paradas cexNanRunPts 0.1 30 2 = .ok [] := by
  constructor
  · rw [cexNan_flags]
    refine ⟨le_rfl, by norm_num, ?_, Or.inl rfl, Or.inl (by norm_num)⟩
    intro j h1 h2
    have hj : j = 0 := by omega
    subst hj
    rfl
  · have hmk : mkStop cexNanRunPts (0, 0).1 ((0, 0).2 + 1) = .ok none :=
      (mkStop_ok_none_iff cexNanRunPts 0 1).mpr rfl
    unfold detectar_paradas
    rw [if_neg (by norm_num [cexNanRunPts])]
    rw [cexNan_flags]
    rw [show runsFrom 0 [true] = [(0, 0)] by simp [runsFrom]]
    simp only [collectStops, hmk]

/-- The stationary pair goes through the detector without raising and
yields exactly one stop. -/
theorem exStat_detect : detectar_paradas exStatPts 0.1 30 2 =
    .ok [⟨0, 1, none, none, none, (0, 0)⟩] := by
  unfold detectar_paradas
  rw [if_neg (by norm_num [exStatPts])]
  rw [exStat_flags]
  rw [show runsFrom 0 [true] = [(0, 0)] by simp [runsFrom]]
  exact collectStops_singleton exStatPts (0, 0) _ exStat_mkStop

/-- Witness instance for the amended C2 on the stationary pair: the call
succeeds and the single maximal run yields the stop over fixes 0..1. -/
theorem C2_stop_list_invariants_wit :
    ∃ st ∈ ([⟨0, 1, none, none, none, (0, 0)⟩] : List Stop),
      st.start_idx = 0 ∧ st.end_idx = 1 := by
  refine (C2_stop_list_invariants exStatPts 0.1 30 2
      [⟨0, 1, none, none, none, (0, 0)⟩] exStat_detect).2.2 0 0 ?_ ?_
  · rw [exStat_flags]
    refine ⟨le_rfl, by norm_num, ?_, Or.inl rfl, Or.inl (by norm_num)⟩
    intro j h1 h2
    have hj : j = 0 := by omega
    subst hj
    rfl
  · show latsSeg exStatPts 0 1 ≠ []
    rw [show latsSeg exStatPts 0 1 = [0, 0] from rfl]
    simp

/-- C4 amended: for a run's span the detector drops the run (no stop, the
loop continues) exactly when no latitude in the span is present; it
raises ZeroDivisionError — aborting the whole call — exactly when some
latitude is present but no longitude is; otherwise it emits a stop whose
centroid averages, span-wide but coordinate-wise independently, the
present latitudes and the present longitudes (a fix with only one present
coordinate contributes to that coordinate's mean only, which is the
correction to the per-fix reading of the claim).  Every stop of a
successful detector call carries the mean over its own span; a single
NaN-coordinate fix inside an otherwise-stationary run still yields a
stop. -/
theorem C4_centroid_rule (pts : List FixRow) (s e : ℕ) :
    (mkStop pts s e = .ok none ↔ latsSeg pts s e = []) ∧
      (mkStop pts s e = .error () ↔
        latsSeg pts s e ≠ [] ∧ lonsSeg pts s e = []) ∧
      (∀ st, mkStop pts s e = .ok (some st) →
        st.start_idx = s ∧ st.end_idx = e ∧
          st.centroid = ((latsSeg pts s e).sum / (latsSeg pts s e).length,
            (lonsSeg pts s e).sum / (lonsSeg pts s e).length)) ∧
      (∀ maxJ minS spdT : ℝ, ∀ sts : List Stop,
        detectar_paradas pts maxJ minS spdT = .ok sts →
        ∀ st ∈ sts,
        st.centroid = ((latsSeg pts st.start_idx st.end_idx).sum /
            (latsSeg pts st.start_idx st.end_idx).length,
          (lonsSeg pts st.start_idx st.end_idx).sum /
            (lonsSeg pts st.start_idx st.end_idx).length)) := by
  have hsome : ∀ a b : ℕ, ∀ st : Stop, mkStop pts a b = .ok (some st) →
      st.start_idx = a ∧ st.end_idx = b ∧
        st.centroid = ((latsSeg pts a b).sum / (latsSeg pts a b).length,
          (lonsSeg pts a b).sum / (lonsSeg pts a b).length) := by
    intro a b st h
    simp only [mkStop] at h
    split at h
    · simp at h
    · split at h
      · exact Except.noConfusion h
      · simp only [Except.ok.injEq, Option.some.injEq] at h
        subst h
        exact ⟨rfl, rfl, rfl⟩
  refine ⟨mkStop_ok_none_iff pts s e, mkStop_error_iff pts s e, hsome s e, ?_⟩
  intro maxJ minS spdT sts hok st hst
  unfold detectar_paradas at hok
  split at hok
  · simp only [Except.ok.injEq] at hok
    subst hok
    simp at hst
  · rw [collectStops_ok pts _ sts hok] at hst
    obtain ⟨r, _, hsome'⟩ := List.mem_filterMap.mp hst
    obtain ⟨h1, h2, h3⟩ := hsome r.1 (r.2 + 1) st (runStop_eq_some pts r st hsome')
    rw [h1, h2]
    exact h3

/-- A fix with present latitude but NaN longitude, inside a stationary
run. -/
def mixRow : FixRow := ⟨some (.num 1), some .nan, none⟩

/-- Three rows: valid, mixed (latitude 1, longitude NaN), valid. -/
def mixPts : List FixRow := [exZeroRow, mixRow, exZeroRow]

/-- Modelled from the spec: the claim's reading of step 3 — average over
the fixes of the span "whose coordinates are present", skipping a fix
entirely unless both its latitude and longitude are usable, and discard
the run when no fix qualifies.  (The source has no such per-fix filter;
this definition exists to be compared against it.) -/
noncomputable def specCentroid (pts : List FixRow) (a b : ℕ) : Option (ℝ × ℝ) :=
  let valid := (List.range' a (b + 1 - a)).filterMap fun k =>
    match (pts[k]?).bind FixRow.lat, (pts[k]?).bind FixRow.lon with
    | some (.num la), some (.num lo) => some (la, lo)
    | _, _ => none
  if valid.length = 0 then none
  else some ((valid.map Prod.fst).sum / valid.length,
    (valid.map Prod.snd).sum / valid.length)

/-- Flags of `mixPts` at the default thresholds: both edges flagged (speed
`0.0`, deltas unknown). -/
theorem mix_flags : low_flags mixPts 0.1 30 2 = [true, true] := by
  show [lowFlag 30 0.1 2 (mkEdge exZeroRow mixRow),
    lowFlag 30 0.1 2 (mkEdge mixRow exZeroRow)] = [true, true]
  have h1 : mkEdge exZeroRow mixRow = ⟨none, .nan, .num 0⟩ := rfl
  have h2 : mkEdge mixRow exZeroRow = ⟨none, .nan, .num 0⟩ := rfl
  rw [h1, h2]
  simp only [lowFlag, pyLeB, Bool.false_and, Bool.false_or]
  rw [decide_eq_true (by norm_num : (0:ℝ) ≤ 2)]

/-- The stop built for the span 0..2 of `mixPts`. -/
theorem mix_mkStop : mkStop mixPts 0 2 =
    .ok (some ⟨0, 2, none, none, none, (1 / 3, 0)⟩) := by
  have hlat : latsSeg mixPts 0 2 = [0, 1, 0] := rfl
  have hlon : lonsSeg mixPts 0 2 = [0, 0] := rfl
  have ht0 : (mixPts[0]?).bind FixRow.time = none := rfl
  have ht2 : (mixPts[2]?).bind FixRow.time = none := rfl
  simp only [mkStop, hlat, hlon, ht0, ht2]
  rw [if_neg (by norm_num), if_neg (by norm_num)]
  simp only [Except.ok.injEq, Option.some.injEq, Stop.mk.injEq, Prod.ext_iff]
  norm_num

/-- The stop the detector emits on `mixPts`. -/
theorem mix_detect : detectar_paradas mixPts 0.1 30 2 =
    .ok [⟨0, 2, none, none, none, (1 / 3, 0)⟩] := by
  unfold detectar_paradas
  rw [if_neg (by norm_num [mixPts])]
  rw [mix_flags]
  rw [show runsFrom 0 [true, true] = [(0, 1)] by simp [runsFrom]]
  exact collectStops_singleton mixPts (0, 1) _ mix_mkStop

/-- Counterexample to C4 as stated: on `mixPts` the detector's centroid
latitude averages the mixed fix's latitude 1 (its longitude being NaN)
over all three fixes, giving `1/3`, while the claim's per-fix reading
(skip any fix with a missing coordinate) would give `0`. -/
theorem C4_counterexample :
    detectar_paradas mixPts 0.1 30 2 =
        .ok [⟨0, 2, none, none, none, (1 / 3, 0)⟩] ∧
      specCentroid mixPts 0 2 = some (0, 0) ∧
      ¬ ((1 / 3 : ℝ), (0 : ℝ)) = ((0 : ℝ), (0 : ℝ)) := by
  refine ⟨mix_detect, ?_, by norm_num [Prod.ext_iff]⟩
  have hvalid : ((List.range' 0 (2 + 1 - 0)).filterMap fun k =>
      match (mixPts[k]?).bind FixRow.lat, (mixPts[k]?).bind FixRow.lon with
      | some (.num la), some (.num lo) => some (la, lo)
      | _, _ => none) = [((0:ℝ), (0:ℝ)), ((0:ℝ), (0:ℝ))] := rfl
  simp only [specCentroid, hvalid]
  norm_num

/-- Two mixed rows (latitude present, longitude NaN, no time): the single
edge is flagged, the span has a usable latitude and no usable longitude,
so the source raises ZeroDivisionError at line 184 and the whole call
aborts. -/
def crashPts : List FixRow := [mixRow, mixRow]

/-- Flags of `crashPts` at the default thresholds. -/
theorem crash_flags : low_flags crashPts 0.1 30 2 = [true] := by
  show [lowFlag 30 0.1 2 (mkEdge mixRow mixRow)] = [true]
  have he : mkEdge mixRow mixRow = ⟨none, .nan, .num 0⟩ := rfl
  rw [he]
  simp only [lowFlag, pyLeB, Bool.false_and, Bool.false_or]
  rw [decide_eq_true (by norm_num : (0:ℝ) ≤ 2)]

/-- The collapsed error path, now modelled: on `crashPts` the detector
call raises ZeroDivisionError instead of returning a stop list. -/
theorem crash_detect : detectar_paradas crashPts 0.1 30 2 = .error () := by
  have hmk : mkStop crashPts (0, 0).1 ((0, 0).2 + 1) = .error () :=
    (mkStop_error_iff crashPts 0 1).mpr ⟨by simp [show latsSeg crashPts 0 1 = [1, 1] from rfl], rfl⟩
  unfold detectar_paradas
  rw [if_neg (by norm_num [crashPts])]
  rw [crash_flags]
  rw [show runsFrom 0 [true] = [(0, 0)] by simp [runsFrom]]
  simp only [collectStops, hmk]

/-- Witness instance for the amended C4 on `mixPts`: the emitted stop's
centroid is the pair of independent means over the span. -/
theorem C4_centroid_rule_wit :
    (⟨0, 2, none, none, none, (1 / 3, 0)⟩ : Stop).start_idx = 0 ∧
      (⟨0, 2, none, none, none, (1 / 3, 0)⟩ : Stop).end_idx = 2 ∧
      (⟨0, 2, none, none, none, (1 / 3, 0)⟩ : Stop).centroid
        = ((latsSeg mixPts 0 2).sum / (latsSeg mixPts 0 2).length,
          (lonsSeg mixPts 0 2).sum / (lonsSeg mixPts 0 2).length) := by
  exact (C4_centroid_rule mixPts 0 2).2.2.1 _ mix_mkStop

/-- Modelled from the spec: the ConfigurationError gate (reject when
`max_jump_km < 0`, `min_stop_minutes < 0` or `speed_threshold_kmh < 0`,
before any processing) that the source `detectar_paradas` does not
contain; `none` is the fatal rejection, `some` runs the unvalidated
detector. -/
noncomputable def detectarParadasChecked (df_pts : List FixRow)
    (max_jump_km min_stop_minutes speed_threshold_kmh : ℝ) :
    Option (Except Unit (List Stop)) :=
  if max_jump_km < 0 ∨ min_stop_minutes < 0 ∨ speed_threshold_kmh < 0 then none
  else some (detectar_paradas df_pts max_jump_km min_stop_minutes speed_threshold_kmh)

/-- C10 amended: `detectar_paradas` performs no threshold validation at
all — on a configuration the spec calls fatal it still runs the whole
pipeline (flag, group, traverse the runs), where the spec-modelled
checked variant rejects. -/
theorem C10_no_threshold_check (pts : List FixRow) (maxJ minS spdT : ℝ)
    (hviol : maxJ < 0 ∨ minS < 0 ∨ spdT < 0) :
    detectarParadasChecked pts maxJ minS spdT = none ∧
      detectar_paradas pts maxJ minS spdT =
        collectStops pts (runsFrom 0 (low_flags pts maxJ minS spdT)) := by
  constructor
  · unfold detectarParadasChecked
    rw [if_pos hviol]
  · unfold detectar_paradas
    split
    · next hlen =>
      have hfl : low_flags pts maxJ minS spdT = [] := by
        have := low_flags_length pts maxJ minS spdT
        rw [List.eq_nil_iff_forall_not_mem]
        intro x hx
        have : (low_flags pts maxJ minS spdT).length ≠ 0 := by
          intro h0
          rw [List.length_eq_zero] at h0
          rw [h0] at hx
          simp at hx
        omega
      rw [hfl]
      rw [show runsFrom 0 [] = [] from by simp [runsFrom]]
      rw [collectStops]
    · rfl

/-- Flags of the stationary pair at the violating thresholds
`(-1, -1, 5)`. -/
theorem exStat_flags_neg : low_flags exStatPts (-1) (-1) 5 = [true] := by
  show [lowFlag (-1) (-1) 5 (mkEdge exZeroRow exZeroRow)] = [true]
  have he : mkEdge exZeroRow exZeroRow
      = ⟨none, .num (haversine_km (0, 0) (0, 0)), .num 0⟩ := rfl
  rw [he]
  simp only [lowFlag, pyLeB, Bool.false_and, Bool.false_or]
  rw [decide_eq_true (by norm_num : (0:ℝ) ≤ 5)]

/-- Counterexample to C10 as stated: the call with `max_jump_km = -1`,
`min_stop_minutes = -1` (both violating) is not rejected — it runs and
returns a normal one-stop list, while the spec-modelled checked variant
rejects it. -/
theorem C10_counterexample :
    detectar_paradas exStatPts (-1) (-1) 5 =
        .ok [⟨0, 1, none, none, none, (0, 0)⟩] ∧
      detectarParadasChecked exStatPts (-1) (-1) 5 = none := by
  constructor
  · unfold detectar_paradas
    rw [if_neg (by norm_num [exStatPts])]
    rw [exStat_flags_neg]
    rw [show runsFrom 0 [true] = [(0, 0)] by simp [runsFrom]]
    exact collectStops_singleton exStatPts (0, 0) _ exStat_mkStop
  · unfold detectarParadasChecked
    rw [if_pos (Or.inl (by norm_num))]

/-- Witness instance for the amended C10 at the violating configuration
`(-1, -1, 5)` on the stationary pair. -/
theorem C10_no_threshold_check_wit :
    detectarParadasChecked exStatPts (-1) (-1) 5 = none ∧
      detectar_paradas exStatPts (-1) (-1) 5 =
        collectStops exStatPts (runsFrom 0 (low_flags exStatPts (-1) (-1) 5)) :=
  C10_no_threshold_check exStatPts (-1) (-1) 5 (Or.inl (by norm_num))

/-- The second fix of scenario B: same latitude, longitude 4.5 degrees
east (about 500 km along the equator). -/
def farRow : FixRow := ⟨some (.num 0), some (.num 4.5), none⟩

/-- Scenario B input for the detector: two fixes far apart, no time
data. -/
def farPts : List FixRow := [exZeroRow, farRow]

/-- Exact value of the haversine distance along the equator for a 4.5
degree longitude difference. -/
theorem haversine_eq_far : haversine_km (0, 0) (0, 4.5) = 6371 * Real.pi / 40 := by
  unfold haversine_km havTerm radians
  norm_num
  have h8 : (9 / 2 : ℝ) * Real.pi / 180 / 2 = Real.pi / 80 := by ring
  rw [h8]
  have hnn : 0 ≤ Real.sin (Real.pi / 80) := by
    refine Real.sin_nonneg_of_nonneg_of_le_pi (by positivity) ?_
    nlinarith [Real.pi_pos]
  rw [Real.sqrt_sq hnn]
  rw [Real.arcsin_sin (by nlinarith [Real.pi_pos]) (by nlinarith [Real.pi_pos])]
  ring

/-- The scenario-B distance really exceeds both 100 km (the segmenter
threshold) and 500 km (the claim's figure is about 500.4 km). -/
theorem haversine_far_bounds :
    100 < haversine_km (0, 0) (0, 4.5) ∧ 500 < haversine_km (0, 0) (0, 4.5) := by
  rw [haversine_eq_far]
  have h := Real.pi_gt_d6
  constructor <;> nlinarith

/-- Flags of `farPts` at the default thresholds: the single edge is
flagged by clause (b), its speed being `0.0` for lack of time data. -/
theorem far_flags : low_flags farPts 0.1 30 2 = [true] := by
  show [lowFlag 30 0.1 2 (mkEdge exZeroRow farRow)] = [true]
  have he : mkEdge exZeroRow farRow
      = ⟨none, .num (haversine_km (0, 0) (0, 4.5)), .num 0⟩ := rfl
  rw [he]
  simp only [lowFlag, pyLeB, Bool.false_and, Bool.false_or]
  rw [decide_eq_true (by norm_num : (0:ℝ) ≤ 2)]

/-- The stop built for the span 0..1 of `farPts`. -/
theorem far_mkStop : mkStop farPts 0 1 =
    .ok (some ⟨0, 1, none, none, none, (0, 2.25)⟩) := by
  have hlat : latsSeg farPts 0 1 = [0, 0] := rfl
  have hlon : lonsSeg farPts 0 1 = [0, 4.5] := rfl
  have ht0 : (farPts[0]?).bind FixRow.time = none := rfl
  have ht1 : (farPts[1]?).bind FixRow.time = none := rfl
  simp only [mkStop, hlat, hlon, ht0, ht1]
  rw [if_neg (by norm_num), if_neg (by norm_num)]
  simp only [Except.ok.injEq, Option.some.injEq, Stop.mk.injEq, Prod.ext_iff]
  norm_num

/-- C9 (scenario B): two fixes 500 km apart with no time data — the
segmenter at threshold 100 emits zero segments (no two-point segment can
be formed), while the detector computes a null delta, hence speed `0.0`,
flags the single edge by clause (b), and emits one stop spanning both
fixes. -/
theorem C9_scenario_b :
    segmentos 100 [((0:ℝ), (0:ℝ)), ((0:ℝ), (4.5:ℝ))] = [] ∧
      500 < haversine_km (0, 0) (0, 4.5) ∧
      (edges farPts).map Edge.delta_min = [none] ∧
      (edges farPts).map Edge.speed_kmh = [.num 0] ∧
      low_flags farPts 0.1 30 2 = [true] ∧
      detectar_paradas farPts 0.1 30 2 =
        .ok [⟨0, 1, none, none, none, (0, 2.25)⟩] := by
  refine ⟨?_, haversine_far_bounds.2, rfl, rfl, far_flags, ?_⟩
  · show segAux 100 (0, 0) [(0, 0)] [(0, 4.5)] = []
    rw [segAux]
    rw [if_neg (not_le.mpr haversine_far_bounds.1)]
    rw [segAux]
    norm_num
  · unfold detectar_paradas
    rw [if_neg (by norm_num [farPts])]
    rw [far_flags]
    rw [show runsFrom 0 [true] = [(0, 0)] by simp [runsFrom]]
    exact collectStops_singleton farPts (0, 0) _ far_mkStop

/-- Reading consecutive indices through `getP` recovers the suffix of the
point list. -/
theorem range'_map_getP (pts : List (ℝ × ℝ)) :
    ∀ k s, s + k = pts.length → (List.range' s k).map (getP pts) = pts.drop s := by
  intro k
  induction k with
  | zero =>
    intro s h
    rw [show List.range' s 0 = ([] : List ℕ) from rfl, List.map_nil]
    exact (List.drop_eq_nil_of_le (by omega)).symm
  | succ k IH =>
    intro s h
    rw [List.range'_succ, List.map_cons, IH (s + 1) (by omega)]
    have hs : s < pts.length := by omega
    have hget : getP pts s = pts.get ⟨s, hs⟩ := by
      unfold getP
      rw [List.getD_eq_getElem?_getD, List.getElem?_eq_getElem hs]
      rfl
    rw [hget]
    exact (List.drop_eq_getElem_cons hs).symm

/-- Build a chain along a contiguous index range from the pointwise
adjacent relation. -/
theorem chain'_range'_of (S : ℕ → ℕ → Prop) :
    ∀ k s, (∀ j, s ≤ j → j + 1 < s + k → S j (j + 1)) →
      List.Chain' S (List.range' s k) := by
  intro k
  induction k with
  | zero => intro s _; simp
  | succ k IH =>
    intro s h
    rw [List.range'_succ]
    cases k with
    | zero => simp
    | succ k' =>
      rw [List.range'_succ, List.chain'_cons]
      refine ⟨h s le_rfl (by omega), ?_⟩
      rw [← List.range'_succ]
      refine IH (s + 1) ?_
      intro j hj1 hj2
      exact h j (by omega) (by omega)

/-- The point-level segmenter loop is the index-level loop read through
`getP`: both test the same distances in the same order. -/
theorem segAux_eq_map (maxJ : ℝ) (pts : List (ℝ × ℝ)) :
    ∀ (l : List ℕ) (prev : ℕ) (cur : List ℕ),
      segAux maxJ (getP pts prev) (cur.map (getP pts)) (l.map (getP pts))
        = (segIdxAux maxJ pts prev cur l).map (List.map (getP pts)) := by
  intro l
  induction l with
  | nil =>
    intro prev cur
    by_cases h : 2 ≤ cur.length <;>
      simp [segAux, segIdxAux, List.length_map, h]
  | cons j rest IH =>
    intro prev cur
    rw [List.map_cons]
    by_cases hc : haversine_km (getP pts prev) (getP pts j) ≤ maxJ
    · rw [show segAux maxJ (getP pts prev) (cur.map (getP pts))
          (getP pts j :: rest.map (getP pts))
          = segAux maxJ (getP pts j) (cur.map (getP pts) ++ [getP pts j])
            (rest.map (getP pts)) from by rw [segAux, if_pos hc]]
      rw [show segIdxAux maxJ pts prev cur (j :: rest)
          = segIdxAux maxJ pts j (cur ++ [j]) rest from by rw [segIdxAux, if_pos hc]]
      rw [show cur.map (getP pts) ++ [getP pts j] = (cur ++ [j]).map (getP pts) from
        by simp]
      exact IH j (cur ++ [j])
    · rw [show segAux maxJ (getP pts prev) (cur.map (getP pts))
          (getP pts j :: rest.map (getP pts))
          = (if 2 ≤ (cur.map (getP pts)).length then [cur.map (getP pts)] else [])
            ++ segAux maxJ (getP pts j) [getP pts j] (rest.map (getP pts)) from by
        rw [segAux, if_neg hc]]
      rw [show segIdxAux maxJ pts prev cur (j :: rest)
          = (if 2 ≤ cur.length then [cur] else [])
            ++ segIdxAux maxJ pts j [j] rest from by rw [segIdxAux, if_neg hc]]
      rw [show ([getP pts j] : List (ℝ × ℝ)) = ([j] : List ℕ).map (getP pts) from rfl]
      rw [IH j [j]]
      rw [List.map_append]
      congr 1
      by_cases h2 : 2 ≤ cur.length <;>
        simp [List.length_map, h2]

/-- The segmenter output is the index-level output read through `getP`. -/
theorem segmentos_eq_map (maxJ : ℝ) (pts : List (ℝ × ℝ)) :
    segmentos maxJ pts = (segIdxs maxJ pts).map (List.map (getP pts)) := by
  cases pts with
  | nil => rfl
  | cons p rest =>
    have ht := segAux_eq_map maxJ (p :: rest) (List.range' 1 rest.length) 0 [0]
    rw [range'_map_getP (p :: rest) rest.length 1 (by simp [Nat.add_comm])] at ht
    rw [show ((p :: rest).drop 1) = rest from rfl] at ht
    rw [show (([0] : List ℕ).map (getP (p :: rest))) = [p] from rfl] at ht
    rw [show getP (p :: rest) 0 = p from rfl] at ht
    exact ht

open Classical in
/-- `isolatedB` truth. -/
theorem isolatedB_iff (maxJ : ℝ) (pts : List (ℝ × ℝ)) (i : ℕ) :
    isolatedB maxJ pts i = true ↔ Isolated maxJ pts i := by
  unfold isolatedB
  constructor
  · intro h
    exact of_decide_eq_true h
  · intro h
    exact decide_eq_true h

/-- `isolatedB` falsity. -/
theorem isolatedB_false (maxJ : ℝ) (pts : List (ℝ × ℝ)) (i : ℕ) :
    isolatedB maxJ pts i = false ↔ ¬ Isolated maxJ pts i := by
  constructor
  · intro h hIso
    rw [(isolatedB_iff maxJ pts i).mpr hIso] at h
    exact Bool.noConfusion h
  · intro h
    cases hb : isolatedB maxJ pts i
    · rfl
    · exact absurd ((isolatedB_iff maxJ pts i).mp hb) h

/-- Invariant of the index-level segmenter loop: with the open segment
being the contiguous block `s..prev`, chain-close inside and entered at a
boundary or jump, every emitted block is a contiguous chain-close block of
at least two indices, and the concatenation of all blocks is exactly the
non-isolated indices of the remaining range. -/
theorem segIdxAux_spec (maxJ : ℝ) (pts : List (ℝ × ℝ)) :
    ∀ (k prev s : ℕ),
      s ≤ prev → prev + 1 + k = pts.length →
      (∀ j, s ≤ j → j < prev → ¬ Jump maxJ pts j) →
      (s = 0 ∨ Jump maxJ pts (s - 1)) →
      (∀ seg ∈ segIdxAux maxJ pts prev (List.range' s (prev + 1 - s))
          (List.range' (prev + 1) k),
        ∃ s' e', s' < e' ∧ e' < pts.length ∧
          seg = List.range' s' (e' + 1 - s') ∧
          ∀ j, s' ≤ j → j < e' → ¬ Jump maxJ pts j) ∧
      (segIdxAux maxJ pts prev (List.range' s (prev + 1 - s))
          (List.range' (prev + 1) k)).flatten
        = (List.range' s (pts.length - s)).filter
            fun i => !isolatedB maxJ pts i := by
  intro k
  induction k with
  | zero =>
    intro prev s hsp hlen hchain hentry
    have hprev : prev + 1 = pts.length := by omega
    rw [show List.range' (prev + 1) 0 = ([] : List ℕ) from rfl]
    rw [show segIdxAux maxJ pts prev (List.range' s (prev + 1 - s)) []
        = if 2 ≤ (List.range' s (prev + 1 - s)).length
          then [List.range' s (prev + 1 - s)] else [] from by rw [segIdxAux]]
    rw [List.length_range']
    by_cases h2 : 2 ≤ prev + 1 - s
    · rw [if_pos h2]
      refine ⟨?_, ?_⟩
      · intro seg hseg
        rw [List.mem_singleton] at hseg
        subst hseg
        exact ⟨s, prev, by omega, by omega, rfl, hchain⟩
      · rw [show ([List.range' s (prev + 1 - s)] : List (List ℕ)).flatten
            = List.range' s (prev + 1 - s) from by simp]
        rw [show pts.length - s = prev + 1 - s from by omega]
        symm
        rw [List.filter_eq_self]
        intro i hi
        rw [List.mem_range'_1] at hi
        have hnot : ¬ Isolated maxJ pts i := by
          rintro ⟨hL, hR⟩
          rcases Nat.eq_or_lt_of_le hi.1 with heq | hlt
          · rcases hR with h | h
            · omega
            · exact hchain i (by omega) (by omega) h
          · rcases hL with h | h
            · omega
            · exact hchain (i - 1) (by omega) (by omega) h
        rw [(isolatedB_false maxJ pts i).mpr hnot]
        rfl
    · rw [if_neg h2]
      refine ⟨by simp, ?_⟩
      rw [show pts.length - s = 1 from by omega]
      rw [show List.range' s 1 = [s] from rfl]
      have hiso : Isolated maxJ pts s := ⟨hentry, Or.inl (by omega)⟩
      rw [List.filter_cons]
      rw [(isolatedB_iff maxJ pts s).mpr hiso]
      simp
  | succ k IH =>
    intro prev s hsp hlen hchain hentry
    rw [List.range'_succ]
    by_cases hclose : haversine_km (getP pts prev) (getP pts (prev + 1)) ≤ maxJ
    · rw [show segIdxAux maxJ pts prev (List.range' s (prev + 1 - s))
          ((prev + 1) :: List.range' (prev + 1 + 1) k)
          = segIdxAux maxJ pts (prev + 1)
            (List.range' s (prev + 1 - s) ++ [prev + 1])
            (List.range' (prev + 1 + 1) k)
          from by rw [segIdxAux, if_pos hclose]]
      have hsnoc : List.range' s (prev + 1 - s) ++ [prev + 1]
          = List.range' s (prev + 1 + 1 - s) := by
        rw [show prev + 1 + 1 - s = (prev + 1 - s) + 1 from by omega,
          List.range'_concat]
        congr 2
        omega
      rw [hsnoc]
      refine IH (prev + 1) s (by omega) (by omega) ?_ hentry
      intro j hj1 hj2
      rcases Nat.lt_or_ge j prev with hj | hj
      · exact hchain j hj1 hj
      · have hjp : j = prev := by omega
        subst hjp
        unfold Jump
        exact not_lt.mpr hclose
    · have hjump : Jump maxJ pts prev := not_le.mp hclose
      rw [show segIdxAux maxJ pts prev (List.range' s (prev + 1 - s))
          ((prev + 1) :: List.range' (prev + 1 + 1) k)
          = (if 2 ≤ (List.range' s (prev + 1 - s)).length
              then [List.range' s (prev + 1 - s)] else [])
            ++ segIdxAux maxJ pts (prev + 1) [prev + 1]
              (List.range' (prev + 1 + 1) k)
          from by rw [segIdxAux, if_neg hclose]]
      rw [show ([prev + 1] : List ℕ)
          = List.range' (prev + 1) (prev + 1 + 1 - (prev + 1)) from by
        rw [show prev + 1 + 1 - (prev + 1) = 1 from by omega]
        rfl]
      obtain ⟨IHa, IHb⟩ := IH (prev + 1) (prev + 1) le_rfl (by omega)
        (fun j hj1 hj2 => absurd (lt_of_le_of_lt hj1 hj2) (lt_irrefl _))
        (Or.inr (by rw [show prev + 1 - 1 = prev from by omega]; exact hjump))
      constructor
      · intro seg hseg
        rw [List.mem_append] at hseg
        rcases hseg with hseg | hseg
        · rw [List.length_range'] at hseg
          by_cases h2 : 2 ≤ prev + 1 - s
          · rw [if_pos h2] at hseg
            rw [List.mem_singleton] at hseg
            subst hseg
            exact ⟨s, prev, by omega, by omega, rfl, hchain⟩
          · rw [if_neg h2] at hseg
            simp at hseg
        · exact IHa seg hseg
      · rw [List.flatten_append, IHb]
        rw [show pts.length - s
            = (pts.length - (prev + 1)) + (prev + 1 - s) from by omega]
        rw [← List.range'_append_1,
          show s + (prev + 1 - s) = prev + 1 from by omega]
        rw [List.filter_append]
        congr 1
        rw [List.length_range']
        by_cases h2 : 2 ≤ prev + 1 - s
        · rw [if_pos h2]
          rw [show ([List.range' s (prev + 1 - s)] : List (List ℕ)).flatten
              = List.range' s (prev + 1 - s) from by simp]
          symm
          rw [List.filter_eq_self]
          intro i hi
          rw [List.mem_range'_1] at hi
          have hnot : ¬ Isolated maxJ pts i := by
            rintro ⟨hL, hR⟩
            rcases Nat.eq_or_lt_of_le hi.1 with heq | hlt
            · rcases hR with h | h
              · omega
              · exact hchain i (by omega) (by omega) h
            · rcases hL with h | h
              · omega
              · exact hchain (i - 1) (by omega) (by omega) h
          rw [(isolatedB_false maxJ pts i).mpr hnot]
          rfl
        · rw [if_neg h2]
          have hse : s = prev := by omega
          rw [show prev + 1 - s = 1 from by omega]
          rw [show List.range' s 1 = [s] from rfl]
          have hiso : Isolated maxJ pts s :=
            ⟨hentry, Or.inr (by rw [hse]; exact hjump)⟩
          rw [List.filter_cons]
          rw [(isolatedB_iff maxJ pts s).mpr hiso]
          simp

/-- Properties of the index-level segmenter at the top level: every block
is a contiguous chain-close run of at least two indices, and the
concatenation of the blocks is exactly the non-isolated index list. -/
theorem segIdxs_spec (maxJ : ℝ) (pts : List (ℝ × ℝ)) :
    (∀ seg ∈ segIdxs maxJ pts, ∃ s' e', s' < e' ∧ e' < pts.length ∧
        seg = List.range' s' (e' + 1 - s') ∧
        ∀ j, s' ≤ j → j < e' → ¬ Jump maxJ pts j) ∧
      (segIdxs maxJ pts).flatten = keptIndices maxJ pts := by
  cases pts with
  | nil =>
    constructor
    · intro seg hseg
      simp [segIdxs] at hseg
    · simp [segIdxs, keptIndices]
  | cons p rest =>
    have h := segIdxAux_spec maxJ (p :: rest) rest.length 0 0 le_rfl
      (by simp [List.length_cons]; omega)
      (fun j h1 h2 => absurd h2 (Nat.not_lt_zero j))
      (Or.inl rfl)
    constructor
    · intro seg hseg
      exact h.1 seg hseg
    · unfold keptIndices
      rw [List.range_eq_range']
      exact h.2

/-- C3: the route segmenter emits only segments of at least two points
whose consecutive points are within `max_jump_km` of each other;
concatenating all emitted segments, in order, reproduces the input points
at exactly the non-isolated positions (`keptIndices`: a position is
dropped precisely when each side is a sequence boundary or a jump, i.e.
the isolated single points stranded between large jumps); and, at the
index level, the two endpoints of any jump never land in the same
segment. -/
theorem C3_segmenter_guarantees (maxJ : ℝ) (pts : List (ℝ × ℝ)) :
    (∀ seg ∈ segmentos maxJ pts, 2 ≤ seg.length ∧
        List.Chain' (fun a b => haversine_km a b ≤ maxJ) seg) ∧
      (segmentos maxJ pts).flatten = (keptIndices maxJ pts).map (getP pts) ∧
      segmentos maxJ pts = (segIdxs maxJ pts).map (List.map (getP pts)) ∧
      (∀ i seg, Jump maxJ pts i → seg ∈ segIdxs maxJ pts →
        ¬ (i ∈ seg ∧ i + 1 ∈ seg)) := by
  obtain ⟨hA, hB⟩ := segIdxs_spec maxJ pts
  have hmap := segmentos_eq_map maxJ pts
  refine ⟨?_, ?_, hmap, ?_⟩
  · intro seg hseg
    rw [hmap] at hseg
    rw [List.mem_map] at hseg
    obtain ⟨iseg, hiseg, rfl⟩ := hseg
    obtain ⟨s', e', hse, hlt, hrange, hchain⟩ := hA iseg hiseg
    constructor
    · rw [List.length_map, hrange, List.length_range']
      omega
    · rw [List.chain'_map, hrange]
      refine chain'_range'_of _ _ _ ?_
      intro j hj1 hj2
      exact not_lt.mp (hchain j hj1 (by omega))
  · rw [hmap, ← List.map_flatten, hB]
  · rintro i seg hJ hseg ⟨hi, hi1⟩
    obtain ⟨s', e', hse, hlt, hrange, hchain⟩ := hA seg hseg
    rw [hrange, List.mem_range'_1] at hi hi1
    exact hchain i (by omega) (by omega) hJ
